import Mathlib

/-!
Verification of the bullzeye business-search service (Express + Telegram bot).
The definitions below are a shallow embedding of the two JavaScript variants
(src/api/server.js and the polling-bot variant): JSON field values are modelled
explicitly so that JavaScript truthiness is captured, absent object fields are
modelled with Option, and each route handler's pure core is a Lean function.
-/

set_option maxRecDepth 8000

namespace Bullzeye

/-- Value models a JSON field value as it matters to this code: a string, a
number (ratings and review counts), or null.  JavaScript truthiness on these
is captured by truthyV. -/
inductive Value where
  | vstr (s : String)
  | vnum (n : Int)
  | vnull
deriving DecidableEq, Repr

/-- truthyV v is JavaScript truthiness of the value v: empty string, 0 and
null are falsy, everything else truthy. -/
def truthyV : Value → Bool
  | .vstr s => s != ""
  | .vnum n => n != 0
  | .vnull => false

/-- RawRecord is one raw listing object from the upstream search API.  A
field that the object lacks (or that is null, which behaves identically in
every use the string fields see) is none; rating/reviews/review_count keep
the full Value type because the chat path distinguishes null from 0 via
optional chaining. -/
structure RawRecord where
  title : Option String
  name : Option String
  address : Option String
  street_address : Option String
  phone : Option String
  website : Option String
  url : Option String
  rating : Option Value
  reviews : Option Value
  review_count : Option Value
deriving DecidableEq, Repr

/-- BusinessRecord is the canonical record produced by the /search handler's
map over raw results. -/
structure BusinessRecord where
  name : String
  address : String
  phone : String
  website : String
  rating : Value
  reviews : Value
deriving DecidableEq, Repr

/-- strOr a d embeds the JavaScript expression a || d on a possibly absent
string field: an absent field and the empty string are falsy and fall through
to d. -/
def strOr (a : Option String) (d : String) : String :=
  match a with
  | some s => if s = "" then d else s
  | none => d

/-- strOr2 a b d embeds a || b || d on string fields. -/
def strOr2 (a b : Option String) (d : String) : String :=
  strOr a (strOr b d)

/-- valOr a d embeds a || d on a Value field. -/
def valOr (a : Option Value) (d : Value) : Value :=
  match a with
  | some v => if truthyV v then v else d
  | none => d

/-- valOr2 a b d embeds a || b || d on Value fields. -/
def valOr2 (a b : Option Value) (d : Value) : Value :=
  valOr a (valOr b d)

/-- normalize is the businesses map of the /search route (server.js lines
76-83): name: b.title || b.name || 'No Name', address: b.address ||
b.street_address || 'N/A', phone: b.phone || 'N/A', website: b.website ||
b.url || 'N/A', rating: b.rating || 'N/A', reviews: b.reviews ||
b.review_count || 'N/A'. -/
def normalize (b : RawRecord) : BusinessRecord :=
  { name := strOr2 b.title b.name "No Name"
    address := strOr2 b.address b.street_address "N/A"
    phone := strOr b.phone "N/A"
    website := strOr2 b.website b.url "N/A"
    rating := valOr b.rating (.vstr "N/A")
    reviews := valOr2 b.reviews b.review_count (.vstr "N/A") }

/-- emptyRaw is the raw record providing no field at all. -/
def emptyRaw : RawRecord :=
  ⟨none, none, none, none, none, none, none, none, none, none⟩

/-- specFieldStr, written from the spec's words for a fallback chain over
string fields: the first present field in declared priority order is chosen,
with falsy-but-present values (the empty string) treated as absent, and the
default d used when the whole chain yields nothing. -/
def specFieldStr (chain : List (Option String)) (d : String) : String :=
  ((chain.filterMap id).find? (fun s => s != "")).getD d

/-- specFieldVal, written from the spec's words for a fallback chain over
Value fields: first present-and-truthy wins, falsy-but-present (0, empty
string, null) treated as absent, default d otherwise. -/
def specFieldVal (chain : List (Option Value)) (d : Value) : Value :=
  ((chain.filterMap id).find? truthyV).getD d

/-- allowedEngines is the engine allow-list of both variants. -/
def allowedEngines : List String :=
  ["google_maps", "google", "bing_maps", "apple_maps"]

/-- selectedEngine embeds server.js line 70: allowedEngines.includes(engine)
? engine : 'google_maps'; an absent engine field is never in the list. -/
def selectedEngine (engine : Option String) : String :=
  match engine with
  | some e => if allowedEngines.contains e then e else "google_maps"
  | none => "google_maps"

/-- ParsedCommand is the structured request the chat command parser builds
(keyword, city, country, engine). -/
structure ParsedCommand where
  keyword : String
  city : String
  country : String
  engine : String
deriving DecidableEq, Repr

/-- trimChars is JavaScript String.prototype.trim on a character list:
whitespace is stripped from both ends. -/
def trimChars (cs : List Char) : List Char :=
  ((cs.dropWhile Char.isWhitespace).reverse.dropWhile Char.isWhitespace).reverse

/-- splitOnChar is JavaScript String.prototype.split with a one-character
separator: the empty string splits to one empty segment, and separators
delimit (possibly empty) segments. -/
def splitOnChar (sep : Char) : List Char → List (List Char)
  | [] => [[]]
  | c :: rest =>
    match splitOnChar sep rest with
    | [] => [[]]
    | s :: ss => if c = sep then [] :: s :: ss else (c :: s) :: ss

/-- lowerStr is JavaScript toLowerCase restricted to the ASCII range this
program feeds it. -/
def lowerStr (s : String) : String :=
  String.mk (s.data.map Char.toLower)

/-- commandParts embeds text.slice(1).split(',').map(p => p.trim()) from the
telegram handlers. -/
def commandParts (text : String) : List String :=
  ((splitOnChar ',' (text.data.drop 1)).map trimChars).map String.mk

/-- isCommand embeds the sigil test text.startsWith('/'). -/
def isCommand (t : String) : Bool :=
  match t.data with
  | c :: _ => c = '/'
  | [] => false

/-- parseCommand is the command-parsing block of the telegram handlers
(server.js lines 136-153): non-commands and fewer than 2 segments produce no
request; otherwise keyword is segment 0, city is segment 1 when there are at
least 3 segments (else empty), country is the lower-cased last-of-the-first
three per the same conditionals, and engine is the lower-cased segment 3
exactly when there are exactly 4 segments, else the default. -/
def parseCommand (text : String) : Option ParsedCommand :=
  if isCommand text then
    let parts := commandParts text
    if parts.length < 2 then none
    else some
      { keyword := parts[0]!
        city := if 4 ≤ parts.length then parts[1]!
                else if parts.length = 3 then parts[1]! else ""
        country := if 4 ≤ parts.length then lowerStr parts[2]!
                   else if parts.length = 3 then lowerStr parts[2]!
                   else lowerStr parts[1]!
        engine := if parts.length = 4 then lowerStr parts[3]! else "google_maps" }
  else none

/-- reservedChars is the character class of escapeMarkdown's regex
(underscore, star, brackets, parens, tilde, backtick, gt, hash, plus, minus,
equals, pipe, braces, dot, bang). -/
def reservedChars : List Char :=
  ['_', '*', '[', ']', '(', ')', '~', Char.ofNat 96, '>', '#', '+', '-',
   '=', '|', Char.ofNat 123, Char.ofNat 125, '.', '!']

/-- escapeChar maps one character to its escaped form: reserved characters
gain a single leading backslash, all others pass through. -/
def escapeChar (c : Char) : List Char :=
  if reservedChars.contains c then ['\\', c] else [c]

/-- escapeMarkdown embeds server.js lines 113-116: a falsy argument (the
empty string) yields the empty string, otherwise every reserved character is
replaced by backslash-plus-itself. -/
def escapeMarkdown (text : String) : String :=
  if text = "" then ""
  else String.mk (text.data.map escapeChar).flatten

/-- isLocalChar is the regex class for the part before the at-sign:
letters, digits, dot, underscore, percent, plus, minus. -/
def isLocalChar (c : Char) : Bool :=
  c.isAlpha || c.isDigit || c == '.' || c == '_' || c == '%' || c == '+' || c == '-'

/-- isDomainChar is the regex class for the domain: letters, digits, dot,
minus. -/
def isDomainChar (c : Char) : Bool :=
  c.isAlpha || c.isDigit || c == '.' || c == '-'

/-- isTldChar is the regex class for the top-level-domain part: letters
(the i flag makes the lowercase class case-insensitive). -/
def isTldChar (c : Char) : Bool :=
  c.isAlpha

/-- tryDot cs m attempts the regex tail backslash-dot [a-z]{2,} after a
domain part of exactly m characters: the character at position m must be a
literal dot and the greedy letter run after it must have length at least 2;
on success it returns the matched domain-dot-tld characters and the rest of
the input. -/
def tryDot (cs : List Char) (m : Nat) : Option (List Char × List Char) :=
  match cs.drop m with
  | c :: rest =>
    if c = '.' then
      if 2 ≤ (rest.takeWhile isTldChar).length then
        some (cs.take m ++ c :: rest.takeWhile isTldChar, rest.dropWhile isTldChar)
      else none
    else none
  | [] => none

/-- matchDomainFrom cs n is the backtracking loop of the greedy quantifier
[a-zA-Z0-9.-]+: domain lengths are tried from n downward (largest first, as
the engine does), each followed by the literal dot and the tld run. -/
def matchDomainFrom (cs : List Char) : Nat → Option (List Char × List Char)
  | 0 => none
  | m + 1 =>
    match tryDot cs (m + 1) with
    | some r => some r
    | none => matchDomainFrom cs m

/-- matchDomain starts the domain backtracking at the maximal run of domain
characters, exactly as the greedy quantifier does. -/
def matchDomain (cs : List Char) : Option (List Char × List Char) :=
  matchDomainFrom cs (cs.takeWhile isDomainChar).length

/-- matchEmailAt cs matches the whole email regex anchored at the head of
cs: a nonempty maximal run of local characters, a literal at-sign, then the
domain part.  Backtracking inside the local run is vacuous because the
at-sign is not a local character, so the maximal run either is followed by
the at-sign or no run is. -/
def matchEmailAt (cs : List Char) : Option (List Char × List Char) :=
  match cs.dropWhile isLocalChar with
  | a :: rest =>
    if a = '@' then
      if (cs.takeWhile isLocalChar).isEmpty then none
      else
        match matchDomain rest with
        | some (d, r) => some (cs.takeWhile isLocalChar ++ '@' :: d, r)
        | none => none
    else none
  | [] => none

/-- scanEmailsAux is the global-flag scan: try a match at each position,
emit it and resume after its end, or advance one character on failure.  A
fuel argument equal to the input length bounds the recursion; every step
consumes at least one character so the fuel never runs out early. -/
def scanEmailsAux : Nat → List Char → List (List Char)
  | 0, _ => []
  | _, [] => []
  | fuel + 1, c :: cs =>
    match matchEmailAt (c :: cs) with
    | some (m, r) => m :: scanEmailsAux fuel r
    | none => scanEmailsAux fuel cs

/-- insertUniq is one step of rebuilding a list through a JavaScript Set:
an element already seen is dropped, a new one is appended. -/
def insertUniq (acc : List String) (x : String) : List String :=
  if x ∈ acc then acc else acc ++ [x]

/-- dedupFirst embeds [...new Set(matches)]: duplicates removed, first
occurrence kept. -/
def dedupFirst (l : List String) : List String :=
  l.foldl insertUniq []

/-- extractEmails embeds the extractEmails helper: run the email regex with
the global flag over the text and deduplicate the matches through a Set. -/
def extractEmails (text : String) : List String :=
  dedupFirst ((scanEmailsAux text.data.length text.data).map String.mk)

/-- scrapeEmailsFromWebsite embeds the scraping helper with the network
fetch made explicit: a successful fetch yields the page body, any fetch
error yields none, and the catch branch turns that into an empty list. -/
def scrapeEmailsFromWebsite (fetched : Option String) : List String :=
  match fetched with
  | some body => extractEmails body
  | none => []

/-- isEmailShape cs states, following the spec's words, that cs is
local-part at-sign domain dot tld with a nonempty local part over the local
class, a nonempty domain over the domain class, and a tld of at least two
letters. -/
def isEmailShape (cs : List Char) : Prop :=
  ∃ loc dom tld, cs = loc ++ '@' :: (dom ++ '.' :: tld) ∧
    loc ≠ [] ∧ loc.all isLocalChar ∧
    dom ≠ [] ∧ dom.all isDomainChar ∧
    2 ≤ tld.length ∧ tld.all isTldChar

/-- optToString embeds the optional chaining x?.toString(): an absent or
null value yields no string, a number its decimal rendering, a string
itself. -/
def optToString : Option Value → Option String
  | none => none
  | some .vnull => none
  | some (.vstr s) => some s
  | some (.vnum n) => some (toString n)

/-- renderedRating is the rating part of the chat message line (server.js
line 184): escapeMarkdown(b.rating?.toString() || 'N/A'). -/
def renderedRating (b : RawRecord) : String :=
  escapeMarkdown (strOr (optToString b.rating) "N/A")

/-- renderedReviews is the review-count part of the same line:
escapeMarkdown(b.reviews?.toString() || '0'). -/
def renderedReviews (b : RawRecord) : String :=
  escapeMarkdown (strOr (optToString b.reviews) "0")

/-- emailsFor embeds b.website ? await scrapeEmailsFromWebsite(b.website) :
[], with the per-URL scrape outcome supplied as an oracle so the network
stays outside the model. -/
def emailsFor (scrapeOf : String → List String) (b : RawRecord) : List String :=
  match b.website with
  | some w => if w = "" then [] else scrapeOf w
  | none => []

/-- formatMessage is the message block built for one record in the chat
delivery loop (server.js lines 180-185). -/
def formatMessage (b : RawRecord) (emails : List String) : String :=
  "*" ++ escapeMarkdown (strOr2 b.title b.name "No Name") ++ "*\n" ++
  "Address: " ++ escapeMarkdown (strOr2 b.address b.street_address "N/A") ++ "\n" ++
  "Phone: " ++ escapeMarkdown (strOr b.phone "N/A") ++ "\n" ++
  "Website: " ++ escapeMarkdown (strOr2 b.website b.url "N/A") ++ "\n" ++
  "Rating: " ++ renderedRating b ++ " (" ++ renderedReviews b ++ " reviews)\n" ++
  "Emails: " ++ (if emails.isEmpty then "None found"
                 else String.intercalate ", " (emails.map escapeMarkdown)) ++ "\n"

/-- deliveryMessages is the per-record delivery loop (server.js lines
177-188): one chat message per record of businessesRaw.slice(0, 10). -/
def deliveryMessages (scrapeOf : String → List String) (raw : List RawRecord) :
    List String :=
  (raw.take 10).map (fun b => formatMessage b (emailsFor scrapeOf b))

/-- BusinessesField models the businesses field of the export request body
as the guard sees it: absent (or otherwise falsy), present but not an
array, or an array. -/
inductive BusinessesField where
  | missing
  | notArray
  | arr (bs : List BusinessRecord)
deriving DecidableEq, Repr

/-- ExportResponse models the outcome of the /download-excel handler: a
client-error rejection, or a workbook built from the given rows (the
spreadsheet encoder itself is an external collaborator, so the response
carries the rows handed to it). -/
inductive ExportResponse where
  | badRequest (code : Nat) (msg : String)
  | file (rows : List BusinessRecord) (filename : String)
deriving DecidableEq, Repr

/-- downloadExcel embeds the /download-excel handler (server.js lines
93-108): the guard !businesses || !Array.isArray(businesses) ||
businesses.length === 0 rejects with 400 'No data to export'; otherwise the
workbook is built from the list and sent under the given filename. -/
def downloadExcel (businesses : BusinessesField) (filename : String) :
    ExportResponse :=
  match businesses with
  | .missing => .badRequest 400 "No data to export"
  | .notArray => .badRequest 400 "No data to export"
  | .arr bs =>
    if bs.length = 0 then .badRequest 400 "No data to export"
    else .file bs filename

/-! Helper lemmas about the fallback combinators. -/

theorem specFieldStr_nil (d : String) : specFieldStr [] d = d := by
  simp [specFieldStr]

theorem specFieldStr_cons_none (rest : List (Option String)) (d : String) :
    specFieldStr (none :: rest) d = specFieldStr rest d := by
  simp [specFieldStr]

theorem specFieldStr_cons_some (s : String) (rest : List (Option String)) (d : String) :
    specFieldStr (some s :: rest) d = if s = "" then specFieldStr rest d else s := by
  by_cases hs : s = ""
  · have hb : (s != "") = false := by simp [hs]
    simp [specFieldStr, List.find?_cons, hb, hs]
  · have hb : (s != "") = true := by simp [hs]
    simp [specFieldStr, List.find?_cons, hb, hs]

theorem specFieldVal_nil (d : Value) : specFieldVal [] d = d := by
  simp [specFieldVal]

theorem specFieldVal_cons_none (rest : List (Option Value)) (d : Value) :
    specFieldVal (none :: rest) d = specFieldVal rest d := by
  simp [specFieldVal]

theorem specFieldVal_cons_some (v : Value) (rest : List (Option Value)) (d : Value) :
    specFieldVal (some v :: rest) d = if truthyV v then v else specFieldVal rest d := by
  cases hv : truthyV v <;> simp [specFieldVal, List.find?_cons, hv]

theorem strOr_spec (a : Option String) (d : String) : strOr a d = specFieldStr [a] d := by
  cases a with
  | none => simp [strOr, specFieldStr_cons_none, specFieldStr_nil]
  | some s =>
    by_cases hs : s = "" <;>
      simp [strOr, specFieldStr_cons_some, specFieldStr_nil, hs]

theorem strOr2_spec (a b : Option String) (d : String) :
    strOr2 a b d = specFieldStr [a, b] d := by
  cases a with
  | none =>
    rw [specFieldStr_cons_none]
    exact strOr_spec b d
  | some s =>
    rw [specFieldStr_cons_some]
    show (if s = "" then strOr b d else s) = if s = "" then specFieldStr [b] d else s
    rw [strOr_spec]

theorem valOr_spec (a : Option Value) (d : Value) : valOr a d = specFieldVal [a] d := by
  cases a with
  | none => simp [valOr, specFieldVal_cons_none, specFieldVal_nil]
  | some v =>
    cases hv : truthyV v <;>
      simp [valOr, specFieldVal_cons_some, specFieldVal_nil, hv]

theorem valOr2_spec (a b : Option Value) (d : Value) :
    valOr2 a b d = specFieldVal [a, b] d := by
  cases a with
  | none =>
    rw [specFieldVal_cons_none]
    exact valOr_spec b d
  | some v =>
    rw [specFieldVal_cons_some]
    show (if truthyV v then v else valOr b d) = if truthyV v then v else specFieldVal [b] d
    rw [valOr_spec]

theorem strOr_ne_empty (a : Option String) {d : String} (hd : d ≠ "") :
    strOr a d ≠ "" := by
  cases a with
  | none => simpa [strOr] using hd
  | some s =>
    by_cases hs : s = ""
    · simpa [strOr, hs] using hd
    · simp [strOr, hs]

theorem valOr_truthy (a : Option Value) {d : Value} (hd : truthyV d = true) :
    truthyV (valOr a d) = true := by
  cases a with
  | none => simpa [valOr] using hd
  | some v => cases hv : truthyV v <;> simp [valOr, hv, hd]

/-- C1: for every raw listing record, each normalized field takes the first
field of its declared fallback chain (name: title then name then "No Name";
address: address then street_address then "N/A"; phone: phone then "N/A";
website: website then url then "N/A"; rating: rating then "N/A"; reviews:
reviews then review_count then "N/A"), the first present field in priority
order winning regardless of lower-priority values, with falsy-but-present
values (0, the empty string, null) treated as absent: normalize agrees with
the spec-level first-present-wins chain on every field. -/
theorem claim_C1_normalize_fallback_chains (b : RawRecord) :
    normalize b =
      { name := specFieldStr [b.title, b.name] "No Name"
        address := specFieldStr [b.address, b.street_address] "N/A"
        phone := specFieldStr [b.phone] "N/A"
        website := specFieldStr [b.website, b.url] "N/A"
        rating := specFieldVal [b.rating] (.vstr "N/A")
        reviews := specFieldVal [b.reviews, b.review_count] (.vstr "N/A") } := by
  simp only [normalize, strOr2_spec, strOr_spec, valOr2_spec, valOr_spec]

/-- C3: when the engine field is absent or not in the allow-list, the search
proceeds with engine google_maps. -/
theorem claim_C3_engine_defaults (e : Option String)
    (h : ∀ s, e = some s → allowedEngines.contains s = false) :
    selectedEngine e = "google_maps" := by
  cases e with
  | none => rfl
  | some s =>
    show (if allowedEngines.contains s then s else "google_maps") = "google_maps"
    rw [h s rfl]
    rfl

/-- Witness for C3 at a concrete invalid engine. -/
theorem claim_C3_engine_defaults_witness :
    selectedEngine (some "duckduckgo") = "google_maps" ∧
    selectedEngine none = "google_maps" :=
  ⟨claim_C3_engine_defaults (some "duckduckgo")
      (fun s hs => by cases hs; decide),
   claim_C3_engine_defaults none (fun s hs => nomatch hs)⟩

/-- C4: normalization is a total function (it is defined on every
RawRecord), and every canonical record it produces has all six fields
present and non-null: each is truthy (never the empty string, never 0,
never null), and on a record providing nothing every field is exactly its
default sentinel. -/
theorem claim_C4_normalize_total_sentinels :
    (∀ b : RawRecord,
      (normalize b).name ≠ "" ∧ (normalize b).address ≠ "" ∧
      (normalize b).phone ≠ "" ∧ (normalize b).website ≠ "" ∧
      truthyV (normalize b).rating = true ∧ truthyV (normalize b).reviews = true ∧
      (normalize b).rating ≠ .vnull ∧ (normalize b).reviews ≠ .vnull)
    ∧ normalize emptyRaw =
      { name := "No Name", address := "N/A", phone := "N/A", website := "N/A",
        rating := .vstr "N/A", reviews := .vstr "N/A" } := by
  constructor
  · intro b
    have hrat : truthyV (normalize b).rating = true :=
      valOr_truthy b.rating (by decide)
    have hrev : truthyV (normalize b).reviews = true :=
      valOr_truthy b.reviews (valOr_truthy b.review_count (by decide))
    refine ⟨strOr_ne_empty _ (strOr_ne_empty _ (by decide)),
      strOr_ne_empty _ (strOr_ne_empty _ (by decide)),
      strOr_ne_empty _ (by decide),
      strOr_ne_empty _ (strOr_ne_empty _ (by decide)),
      hrat, hrev, ?_, ?_⟩
    · intro hnull
      rw [hnull] at hrat
      exact absurd hrat (by decide)
    · intro hnull
      rw [hnull] at hrev
      exact absurd hrev (by decide)
  · decide

/-- C2: parsing a chat command splits the text after the sigil on commas,
trims each segment, and assigns fields by arity: 2 segments give keyword
and country with empty city and the default engine, 3 give keyword, city,
country, 4 additionally take the engine from segment 3, and fewer than 2
segments is a parse error; in particular the three example commands parse
as the spec states. -/
theorem claim_C2_command_parsing (t : String) (hs : isCommand t = true) :
    ((commandParts t).length < 2 → parseCommand t = none) ∧
    ((commandParts t).length = 2 →
      parseCommand t = some ⟨(commandParts t)[0]!, "",
        lowerStr (commandParts t)[1]!, "google_maps"⟩) ∧
    ((commandParts t).length = 3 →
      parseCommand t = some ⟨(commandParts t)[0]!, (commandParts t)[1]!,
        lowerStr (commandParts t)[2]!, "google_maps"⟩) ∧
    ((commandParts t).length = 4 →
      parseCommand t = some ⟨(commandParts t)[0]!, (commandParts t)[1]!,
        lowerStr (commandParts t)[2]!, lowerStr (commandParts t)[3]!⟩) ∧
    parseCommand "/seo,new york,usa" =
      some ⟨"seo", "new york", "usa", "google_maps"⟩ ∧
    parseCommand "/seo,usa" = some ⟨"seo", "", "usa", "google_maps"⟩ ∧
    parseCommand "/seo" = none := by
  refine ⟨?_, ?_, ?_, ?_, by decide, by decide, by decide⟩ <;>
    intro h <;> simp [parseCommand, hs, h]

/-- Witness for C2 at the concrete command /seo,usa. -/
theorem claim_C2_command_parsing_witness :
    parseCommand "/seo,usa" = some ⟨"seo", "", "usa", "google_maps"⟩ :=
  (claim_C2_command_parsing "/seo,usa" (by decide)).2.2.2.2.2.1

/-- C9: a command with five or more comma-separated segments takes keyword
from segment 0, city from segment 1 and country from segment 2, silently
ignores the remaining segments, and uses the default engine google_maps,
because the engine segment is honoured only at exactly 4 segments. -/
theorem claim_C9_five_or_more_segments (t : String) (hs : isCommand t = true)
    (h5 : 5 ≤ (commandParts t).length) :
    parseCommand t = some ⟨(commandParts t)[0]!, (commandParts t)[1]!,
      lowerStr (commandParts t)[2]!, "google_maps"⟩ := by
  have h1 : ¬ (commandParts t).length < 2 := by omega
  have h4 : 4 ≤ (commandParts t).length := by omega
  have hne : (commandParts t).length ≠ 4 := by omega
  simp [parseCommand, hs, h1, h4, hne]

/-- Witness for C9 at a concrete five-segment command. -/
theorem claim_C9_five_or_more_segments_witness :
    parseCommand "/a,b,usa,google,extra" =
      some ⟨"a", "b", "usa", "google_maps"⟩ :=
  (claim_C9_five_or_more_segments "/a,b,usa,google,extra" (by decide)
    (by decide)).trans (by decide)

theorem escapeMarkdown_eq (s : String) :
    escapeMarkdown s = String.mk (s.data.map escapeChar).flatten := by
  by_cases h : s = ""
  · subst h
    rfl
  · simp [escapeMarkdown, h]

/-- C5: escapeMarkdown prefixes every occurrence of each reserved character
with a single backslash and leaves all other characters unchanged: it acts
characterwise (it distributes over append), sends a reserved character to
backslash-plus-itself and any other character to itself, and on
"A+B (test)" escapes exactly the plus and both parens. -/
theorem claim_C5_escape_markdown (c : Char) :
    (reservedChars.contains c = true →
      escapeMarkdown (String.mk [c]) = String.mk ['\\', c]) ∧
    (reservedChars.contains c = false →
      escapeMarkdown (String.mk [c]) = String.mk [c]) ∧
    (∀ s t : String, escapeMarkdown (s ++ t) = escapeMarkdown s ++ escapeMarkdown t) ∧
    escapeMarkdown "A+B (test)" = "A\\+B \\(test\\)" := by
  refine ⟨?_, ?_, ?_, by decide⟩
  · intro h
    have hm : c ∈ reservedChars := by simpa using h
    rw [escapeMarkdown_eq]
    simp [escapeChar, hm]
  · intro h
    have hm : c ∉ reservedChars := by simpa using h
    rw [escapeMarkdown_eq]
    simp [escapeChar, hm]
  · intro s t
    rw [escapeMarkdown_eq, escapeMarkdown_eq, escapeMarkdown_eq]
    show String.mk ((s ++ t).data.map escapeChar).flatten =
      String.mk ((s.data.map escapeChar).flatten ++ (t.data.map escapeChar).flatten)
    rw [String.data_append, List.map_append, List.flatten_append]

/-- Witness for C5 at the reserved character plus. -/
theorem claim_C5_escape_markdown_witness :
    escapeMarkdown (String.mk ['+']) = String.mk ['\\', '+'] :=
  (claim_C5_escape_markdown '+').1 (by decide)

/-- C7: the chat delivery loop sends one message per record of
businessesRaw.slice(0, 10), so at most 10 messages are sent per search
regardless of how many raw results came back, and only the first 10 records
are ever delivered (records beyond the tenth never influence the output). -/
theorem claim_C7_at_most_ten_messages (scrapeOf : String → List String)
    (raw : List RawRecord) :
    (deliveryMessages scrapeOf raw).length ≤ 10 ∧
    (deliveryMessages scrapeOf raw).length = min raw.length 10 ∧
    deliveryMessages scrapeOf raw = deliveryMessages scrapeOf (raw.take 10) := by
  refine ⟨?_, ?_, ?_⟩
  · simp only [deliveryMessages, List.length_map, List.length_take]
    omega
  · simp only [deliveryMessages, List.length_map, List.length_take]
    omega
  · simp [deliveryMessages, List.take_take]

/-- C8: an export request whose business-record list is empty, missing or
not a list is rejected with HTTP 400 "No data to export", and a workbook is
only ever produced from a nonempty row list, so an empty file is never
returned. -/
theorem claim_C8_export_empty_rejected (f : BusinessesField) (fn : String) :
    ((f = .missing ∨ f = .notArray ∨ f = .arr []) →
      downloadExcel f fn = .badRequest 400 "No data to export") ∧
    (∀ rows name, downloadExcel f fn = .file rows name → rows ≠ []) := by
  constructor
  · rintro (rfl | rfl | rfl) <;> rfl
  · intro rows name h
    cases f with
    | missing => simp [downloadExcel] at h
    | notArray => simp [downloadExcel] at h
    | arr bs =>
      by_cases hb : bs.length = 0
      · simp [downloadExcel, hb] at h
      · simp only [downloadExcel, hb, if_false, ExportResponse.file.injEq] at h
        intro hnil
        rw [h.1, hnil] at hb
        exact hb rfl

/-- Witness for C8 at a concrete missing businesses field. -/
theorem claim_C8_export_empty_rejected_witness :
    downloadExcel .missing "businesses.xlsx" =
      .badRequest 400 "No data to export" :=
  (claim_C8_export_empty_rejected .missing "businesses.xlsx").1 (Or.inl rfl)

/-- C10: in the chat delivery path a record whose reviews value is absent
or falsy (null, empty string, or the number 0) renders its review count as
"0", not the "N/A" sentinel the JSON normalization path would use for the
same record, while the rating fallback on the same line is "N/A". -/
theorem claim_C10_chat_reviews_zero (b : RawRecord) :
    ((b.reviews = none ∨ b.reviews = some .vnull ∨ b.reviews = some (.vstr "") ∨
        b.reviews = some (.vnum 0)) → renderedReviews b = "0") ∧
    ((b.rating = none ∨ b.rating = some .vnull ∨ b.rating = some (.vstr "")) →
      renderedRating b = "N/A") ∧
    ((b.reviews = none ∧ b.review_count = none) →
      (normalize b).reviews = .vstr "N/A") := by
  refine ⟨?_, ?_, ?_⟩
  · rintro (h | h | h | h) <;> simp only [renderedReviews, h] <;> decide
  · rintro (h | h | h) <;> simp only [renderedRating, h] <;> decide
  · rintro ⟨h1, h2⟩
    simp [normalize, valOr2, valOr, h1, h2]

/-- Witness for C10 at the empty raw record. -/
theorem claim_C10_chat_reviews_zero_witness :
    renderedReviews emptyRaw = "0" ∧ renderedRating emptyRaw = "N/A" ∧
    (normalize emptyRaw).reviews = .vstr "N/A" :=
  ⟨(claim_C10_chat_reviews_zero emptyRaw).1 (Or.inl rfl),
   (claim_C10_chat_reviews_zero emptyRaw).2.1 (Or.inl rfl),
   (claim_C10_chat_reviews_zero emptyRaw).2.2 ⟨rfl, rfl⟩⟩

/-! Lemmas for the email extractor. -/

theorem mem_foldl_insertUniq {y : String} :
    ∀ (l acc : List String), y ∈ l.foldl insertUniq acc → y ∈ acc ∨ y ∈ l := by
  intro l
  induction l with
  | nil =>
    intro acc h
    exact Or.inl h
  | cons x xs ih =>
    intro acc h
    rcases ih (insertUniq acc x) h with h1 | h1
    · unfold insertUniq at h1
      split at h1
      · exact Or.inl h1
      · rcases List.mem_append.mp h1 with h2 | h2
        · exact Or.inl h2
        · simp only [List.mem_singleton] at h2
          exact Or.inr (by simp [h2])
    · exact Or.inr (List.mem_cons_of_mem _ h1)

theorem dedupFirst_subset {y : String} {l : List String} (h : y ∈ dedupFirst l) :
    y ∈ l := by
  rcases mem_foldl_insertUniq l [] h with h1 | h1
  · exact absurd h1 (List.not_mem_nil y)
  · exact h1

theorem insertUniq_nodup (acc : List String) (x : String) (h : acc.Nodup) :
    (insertUniq acc x).Nodup := by
  unfold insertUniq
  split
  · exact h
  · next hx =>
    refine List.Nodup.append h (List.nodup_singleton x) ?_
    intro a ha hax
    simp only [List.mem_singleton] at hax
    subst hax
    exact hx ha

theorem foldl_insertUniq_nodup :
    ∀ (l acc : List String), acc.Nodup → (l.foldl insertUniq acc).Nodup := by
  intro l
  induction l with
  | nil =>
    intro acc h
    exact h
  | cons x xs ih =>
    intro acc h
    exact ih _ (insertUniq_nodup acc x h)

theorem dedupFirst_nodup (l : List String) : (dedupFirst l).Nodup :=
  foldl_insertUniq_nodup l [] List.nodup_nil

theorem tryDot_sound {cs : List Char} {m : Nat} {d r : List Char}
    (hm : 1 ≤ m) (hrun : m ≤ (cs.takeWhile isDomainChar).length)
    (h : tryDot cs m = some (d, r)) :
    d ++ r = cs ∧ ∃ dom tld, d = dom ++ '.' :: tld ∧ dom ≠ [] ∧
      dom.all isDomainChar ∧ 2 ≤ tld.length ∧ tld.all isTldChar := by
  unfold tryDot at h
  cases hdrop : cs.drop m with
  | nil =>
    rw [hdrop] at h
    exact absurd h (by simp)
  | cons c rest =>
    rw [hdrop] at h
    change (if c = '.' then
        if 2 ≤ (rest.takeWhile isTldChar).length then
          some (cs.take m ++ c :: rest.takeWhile isTldChar, rest.dropWhile isTldChar)
        else none
      else none) = some (d, r) at h
    split_ifs at h with hc hlen
    simp only [Option.some.injEq, Prod.mk.injEq] at h
    obtain ⟨hd, hr⟩ := h
    subst hc
    have hmlt : m < cs.length := by
      by_contra hge
      have : cs.drop m = [] := List.drop_eq_nil_of_le (by omega)
      rw [hdrop] at this
      exact absurd this (by simp)
    constructor
    · rw [← hd, ← hr]
      have : (cs.take m ++ '.' :: rest.takeWhile isTldChar) ++ rest.dropWhile isTldChar
          = cs.take m ++ '.' :: (rest.takeWhile isTldChar ++ rest.dropWhile isTldChar) := by
        simp
      rw [this, List.takeWhile_append_dropWhile, ← hdrop, List.take_append_drop]
    · refine ⟨cs.take m, rest.takeWhile isTldChar, by rw [← hd], ?_, ?_, hlen, ?_⟩
      · have : (cs.take m).length = m := by
          rw [List.length_take]
          omega
        intro hnil
        rw [hnil] at this
        simp at this
        omega
      · have hpref : cs.take m = (cs.takeWhile isDomainChar).take m := by
          conv_lhs => rw [← List.takeWhile_append_dropWhile (p := isDomainChar) (l := cs)]
          rw [List.take_append_of_le_length hrun]
        rw [hpref]
        refine List.all_eq_true.mpr fun x hx => ?_
        exact List.mem_takeWhile_imp (List.take_subset m _ hx)
      · refine List.all_eq_true.mpr fun x hx => ?_
        exact List.mem_takeWhile_imp hx

theorem matchDomainFrom_sound {cs d r : List Char} :
    ∀ n, n ≤ (cs.takeWhile isDomainChar).length →
      matchDomainFrom cs n = some (d, r) →
      d ++ r = cs ∧ ∃ dom tld, d = dom ++ '.' :: tld ∧ dom ≠ [] ∧
        dom.all isDomainChar ∧ 2 ≤ tld.length ∧ tld.all isTldChar := by
  intro n
  induction n with
  | zero =>
    intro _ h
    exact absurd h (by simp [matchDomainFrom])
  | succ k ih =>
    intro hn h
    unfold matchDomainFrom at h
    cases htry : tryDot cs (k + 1) with
    | some p =>
      rw [htry] at h
      simp only [Option.some.injEq] at h
      subst h
      exact tryDot_sound (by omega) hn htry
    | none =>
      rw [htry] at h
      exact ih (by omega) h

theorem matchDomain_sound {cs d r : List Char}
    (h : matchDomain cs = some (d, r)) :
    d ++ r = cs ∧ ∃ dom tld, d = dom ++ '.' :: tld ∧ dom ≠ [] ∧
      dom.all isDomainChar ∧ 2 ≤ tld.length ∧ tld.all isTldChar :=
  matchDomainFrom_sound _ (Nat.le_refl _) h

theorem matchEmailAt_sound {cs m r : List Char}
    (h : matchEmailAt cs = some (m, r)) :
    m ++ r = cs ∧ isEmailShape m := by
  unfold matchEmailAt at h
  cases hdrop : cs.dropWhile isLocalChar with
  | nil =>
    rw [hdrop] at h
    exact absurd h (by simp)
  | cons a rest =>
    rw [hdrop] at h
    change (if a = '@' then
        if (cs.takeWhile isLocalChar).isEmpty then none
        else
          match matchDomain rest with
          | some (d, r) => some (cs.takeWhile isLocalChar ++ '@' :: d, r)
          | none => none
      else none) = some (m, r) at h
    split_ifs at h with ha hloc
    cases hmd : matchDomain rest with
    | none =>
      rw [hmd] at h
      exact absurd h (by simp)
    | some p =>
      rw [hmd] at h
      cases p with
      | mk d r2 =>
          simp only [Option.some.injEq, Prod.mk.injEq] at h
          obtain ⟨hm, hr⟩ := h
          obtain ⟨hdr, dom, tld, hd, hdom, hdomall, htld, htldall⟩ :=
            matchDomain_sound hmd
          have hcs : cs.takeWhile isLocalChar ++ a :: rest = cs := by
            rw [← hdrop, List.takeWhile_append_dropWhile]
          constructor
          · rw [← hm, ← hr]
            have : (cs.takeWhile isLocalChar ++ '@' :: d) ++ r2
                = cs.takeWhile isLocalChar ++ '@' :: (d ++ r2) := by
              simp
            rw [this, hdr, ha] at *
            exact hcs
          · refine ⟨cs.takeWhile isLocalChar, dom, tld, ?_, ?_, ?_, hdom, hdomall,
              htld, htldall⟩
            · rw [← hm, hd]
            · intro hnil
              rw [hnil] at hloc
              exact hloc rfl
            · refine List.all_eq_true.mpr fun x hx => ?_
              exact List.mem_takeWhile_imp hx

theorem scanEmailsAux_sound :
    ∀ (fuel : Nat) (cs x : List Char), x ∈ scanEmailsAux fuel cs →
      isEmailShape x ∧ x <:+: cs := by
  intro fuel
  induction fuel with
  | zero =>
    intro cs x h
    exact absurd h (by simp [scanEmailsAux])
  | succ n ih =>
    intro cs x h
    cases cs with
    | nil => exact absurd h (by simp [scanEmailsAux])
    | cons c rest =>
      unfold scanEmailsAux at h
      cases hm : matchEmailAt (c :: rest) with
      | none =>
        rw [hm] at h
        obtain ⟨hsh, s, t, hst⟩ := ih rest x h
        exact ⟨hsh, c :: s, t, by simp [hst]⟩
      | some p =>
        rw [hm] at h
        cases p with
        | mk mtch rmn =>
          simp only [List.mem_cons] at h
          rcases h with rfl | h
          · obtain ⟨heq, hsh⟩ := matchEmailAt_sound hm
            exact ⟨hsh, [], rmn, by simpa using heq⟩
          · obtain ⟨heq, _⟩ := matchEmailAt_sound hm
            obtain ⟨hsh, s, t, hst⟩ := ih rmn x h
            refine ⟨hsh, mtch ++ s, t, ?_⟩
            rw [← heq, ← hst]
            simp

theorem extractEmails_sound {t s : String} (h : s ∈ extractEmails t) :
    isEmailShape s.data ∧ s.data <:+: t.data := by
  unfold extractEmails at h
  have h2 := dedupFirst_subset h
  obtain ⟨cs, hcs, rfl⟩ := List.mem_map.mp h2
  exact scanEmailsAux_sound _ _ _ hcs

/-- C6: email extraction is duplicate-free and every extracted string is a
substring of the document matching local-part at-sign domain dot tld (local
part over letters, digits and dot underscore percent plus minus, domain
over letters, digits, dot, minus, tld of 2 or more letters,
case-insensitive); on the example text it yields exactly
a.b+c@example.co.uk, and a failed fetch yields the empty list. -/
theorem claim_C6_email_extraction :
    extractEmails "contact me at a.b+c@example.co.uk or spam@x" =
      ["a.b+c@example.co.uk"] ∧
    (∀ t : String, (extractEmails t).Nodup) ∧
    (∀ t s : String, s ∈ extractEmails t → isEmailShape s.data ∧ s.data <:+: t.data) ∧
    scrapeEmailsFromWebsite none = [] := by
  refine ⟨by decide, fun t => dedupFirst_nodup _, fun t s h => extractEmails_sound h, rfl⟩

/-- Witness for C6: the extracted example string has the email shape and is
a substring of the example document. -/
theorem claim_C6_email_extraction_witness :
    isEmailShape ("a.b+c@example.co.uk" : String).data ∧
    ("a.b+c@example.co.uk" : String).data <:+:
      ("contact me at a.b+c@example.co.uk or spam@x" : String).data :=
  claim_C6_email_extraction.2.2.1 "contact me at a.b+c@example.co.uk or spam@x"
    "a.b+c@example.co.uk" (by decide)

end Bullzeye
